import Mathlib

/-!
Verification development for `psmail` (`src/pixelate_email.py`).

The program pixelates rectangular regions of an image: it slices the
region out of the NumPy image array, downscales it with PIL nearest-neighbor
resampling, upscales it back, and writes the result into the array in place.
`process_image` folds this over a list of rectangles and saves the result;
`main` checks the input file exists before processing.

Shallow embedding notes:
* an image buffer is a height × width grid of abstract pixel samples
  (the transform only moves samples, it never computes with them, so the
  sample type is a type parameter);
* PIL `Image.resize(…, Image.NEAREST)` maps destination index `i` to source
  index `floor((i + 0.5) * src / dst)`, embedded exactly in `Nat` arithmetic
  as `(2 * i + 1) * src / (2 * dst)`;
* Python slicing `a[y1:y2, x1:x2]` silently clamps to the array bounds,
  embedded with `min`;
* PIL `resize` raises `ValueError` ("height and width must be > 0") when the
  requested target size has a zero dimension, which happens in
  `pixelate_region` exactly when the sliced region is empty (the upscale
  target is the region's own width × height); fallible behaviour is embedded
  with `Except`.
-/

namespace Psmail

/-- An image buffer: the NumPy array `img_array` of shape (height, width, …),
with the per-coordinate sample content abstracted as `data`. -/
@[ext]
structure Buffer (α : Type) where
  height : Nat
  width : Nat
  data : Nat → Nat → α

/-- Errors that a run of the pixelation pipeline can surface.
`valueError` is the imaging library's rejection of a zero-sized resize
target (PIL: "height and width must be > 0").  `invalidRegion` is the error
kind named by the specification for degenerate rectangles; it is part of the
vocabulary so that statements can compare the code's actual failure against
the specified one — no code path in the source produces it. -/
inductive PixelateError where
  | valueError
  | invalidRegion
deriving DecidableEq

/-- Source index chosen by PIL nearest-neighbor resampling for destination
index `i` when scaling a length-`src` axis to length `dst`:
`floor((i + 0.5) * src / dst)`, written in `Nat` arithmetic. -/
def nearestIdx (src dst i : Nat) : Nat :=
  (2 * i + 1) * src / (2 * dst)

/-- PIL `Image.resize((dstW, dstH), Image.NEAREST)` on a `srcH × srcW` grid. -/
def resizeNearest {α : Type} (srcH srcW : Nat) (f : Nat → Nat → α)
    (dstH dstW : Nat) : Nat → Nat → α :=
  fun y x => f (nearestIdx srcH dstH y) (nearestIdx srcW dstW x)

/-- The successful body of `pixelate_region` from `src/pixelate_email.py`:
slice `img_array[y1:y2, x1:x2]` (clamped like Python slicing), downscale to
`(max 1 (width / pixel_size), max 1 (height / pixel_size))` with nearest
neighbor, upscale back to the region size with nearest neighbor, and write
the result into the region in place. -/
def pixelate_apply {α : Type} (img : Buffer α) (x1 y1 x2 y2 pixel_size : Nat) :
    Buffer α :=
  let ry1 := min y1 img.height
  let ry2 := min y2 img.height
  let rx1 := min x1 img.width
  let rx2 := min x2 img.width
  let height := ry2 - ry1
  let width := rx2 - rx1
  let temp_height := max 1 (height / pixel_size)
  let temp_width := max 1 (width / pixel_size)
  let region : Nat → Nat → α := fun y x => img.data (ry1 + y) (rx1 + x)
  let small := resizeNearest height width region temp_height temp_width
  let pixelated := resizeNearest temp_height temp_width small height width
  { img with
    data := fun y x =>
      if ry1 ≤ y ∧ y < ry2 ∧ rx1 ≤ x ∧ x < rx2 then
        pixelated (y - ry1) (x - rx1)
      else img.data y x }

/-- `pixelate_region(img_array, x1, y1, x2, y2, pixel_size)` from
`src/pixelate_email.py`.  When the sliced region is empty (a dimension of the
clamped slice is zero) the library's resize back to the region size rejects
the zero target dimension, so the call raises; otherwise the region is
replaced by its pixelated version and the (mutated) buffer is returned. -/
def pixelate_region {α : Type} (img : Buffer α) (x1 y1 x2 y2 pixel_size : Nat) :
    Except PixelateError (Buffer α) :=
  let height := min y2 img.height - min y1 img.height
  let width := min x2 img.width - min x1 img.width
  if height = 0 ∨ width = 0 then Except.error PixelateError.valueError
  else Except.ok (pixelate_apply img x1 y1 x2 y2 pixel_size)

/-- `process_image(input_path, output_path, regions, pixel_size)` from
`src/pixelate_email.py`, applied to the already-decoded buffer: the `for`
loop rebinds `img_array` to `pixelate_region(img_array, …)` for each
rectangle in list order.  An `Except.ok buf` result means `buf` is the
buffer that is encoded and written to `output_path` (the save happens after
the loop); an `Except.error e` means the exception propagated before the
save, so no output file is written. -/
def process_image {α : Type} (img : Buffer α)
    (regions : List (Nat × Nat × Nat × Nat)) (pixel_size : Nat) :
    Except PixelateError (Buffer α) :=
  match regions with
  | [] => Except.ok img
  | (x1, y1, x2, y2) :: rest =>
    match pixelate_region img x1 y1 x2 y2 pixel_size with
    | Except.error e => Except.error e
    | Except.ok img2 => process_image img2 rest pixel_size

/-- The left-to-right sequential fold of `pixelate_region` over a rectangle
list, as the specification describes `process_image`'s loop. -/
def pixelateFold {α : Type} (img : Buffer α)
    (regions : List (Nat × Nat × Nat × Nat)) (pixel_size : Nat) :
    Except PixelateError (Buffer α) :=
  regions.foldlM
    (fun buf r => pixelate_region buf r.1 r.2.1 r.2.2.1 r.2.2.2 pixel_size) img

-- Configuration constants from the top of src/pixelate_email.py.
def INPUT_FILE : String := "email.jpg"
def OUTPUT_FILE : String := "email_pixelated.jpg"
def PIXEL_SIZE : Nat := 15
def QUALITY : Nat := 95
def FROM_COLUMN : Nat × Nat × Nat × Nat := (539, 145, 875, 400)
def SUBJECT_COLUMN : Nat × Nat × Nat × Nat := (895, 145, 1998, 400)

/-- An ASCII single-quote character, as it appears in the program's
"not found" message around the file name. -/
def squote : String := String.singleton (Char.ofNat 39)

/-- Observable outcome of one run of `main()`: the process exit code, the
lines printed, and the content written to the output file (`none` when no
output file is written). -/
structure RunResult (α : Type) where
  exitCode : Nat
  messages : List String
  outputWritten : Option (Buffer α)

/-- Rendering of the caught exception in `main`'s
`print(f"Error processing image: {e}")`. -/
def errName : PixelateError → String
  | PixelateError.valueError => "ValueError: height and width must be > 0"
  | PixelateError.invalidRegion => "InvalidRegion"

/-- `main()` from `src/pixelate_email.py`, over an abstract world: whether
the input file exists, and the buffer it decodes to when it does.  The
source first checks `input_file.exists()` and exits with code 1 and a
"not found" message before any processing; otherwise it runs
`process_image` on the two hard-coded rectangles, printing a success line
and writing the output on `Except.ok`, or printing the exception and
exiting 1 on `Except.error` (in which case the save was never reached). -/
def mainRun (decoded : Buffer Nat) (inputExists : Bool) : RunResult Nat :=
  if inputExists then
    match process_image decoded [FROM_COLUMN, SUBJECT_COLUMN] PIXEL_SIZE with
    | Except.ok out =>
        { exitCode := 0
          messages := ["Successfully processed image: " ++ OUTPUT_FILE]
          outputWritten := some out }
    | Except.error e =>
        { exitCode := 1
          messages := ["Error processing image: " ++ errName e]
          outputWritten := none }
  else
    { exitCode := 1
      messages := ["Error: Input file " ++ squote ++ INPUT_FILE ++ squote
        ++ " " ++ "not found" ++ "."]
      outputWritten := none }

/-- Composite index map of one pixelation pass along one axis: destination
index `i` of the upscale reads reduced index `nearestIdx (max 1 (extent / ps))
extent i` of the downscaled grid, which in turn reads source index
`nearestIdx extent (max 1 (extent / ps)) …` of the region.  So after
`pixelate_apply`, offset `i` inside the region shows the sample that offset
`blockIdx extent ps i` held before. -/
def blockIdx (extent ps i : Nat) : Nat :=
  nearestIdx extent (max 1 (extent / ps)) (nearestIdx (max 1 (extent / ps)) extent i)

/-- Concrete 8 × 8 buffer with pairwise distinct samples, for witnesses. -/
def sampleBuf : Buffer Nat :=
  { height := 8, width := 8, data := fun y x => 8 * y + x }

/-- Concrete 35 × 3 buffer whose samples record their row, used to exhibit
misaligned pixelation tiles when the block size does not divide the region
height. -/
def tallBuf : Buffer Nat :=
  { height := 35, width := 3, data := fun y x => 4 * y + x }

/-! ## Arithmetic of nearest-neighbor index maps -/

/-- Resampling an axis to its own length picks the identity index. -/
theorem nearestIdx_self (n i : Nat) (hn : 0 < n) : nearestIdx n n i = i := by
  unfold nearestIdx
  apply Nat.div_eq_of_lt_le
  · have e : i * (2 * n) = 2 * (i * n) := by ring
    have e2 : (2 * i + 1) * n = 2 * (i * n) + n := by ring
    rw [e, e2]; omega
  · have e : (i + 1) * (2 * n) = 2 * (i * n) + 2 * n := by ring
    have e2 : (2 * i + 1) * n = 2 * (i * n) + n := by ring
    rw [e, e2]; omega

/-- The nearest-neighbor source index is in range. -/
theorem nearestIdx_lt (src dst i : Nat) (hs : 0 < src) (hi : i < dst) :
    nearestIdx src dst i < src := by
  unfold nearestIdx
  rw [Nat.div_lt_iff_lt_mul (by omega : 0 < 2 * dst)]
  have e : src * (2 * dst) = 2 * (dst * src) := by ring
  have e2 : (2 * i + 1) * src = 2 * (i * src) + src := by ring
  rw [e, e2]
  have h1 : i * src + src ≤ dst * src := by
    calc i * src + src = (i + 1) * src := by ring
      _ ≤ dst * src := Nat.mul_le_mul_right src hi
  omega

/-- Key round trip: scaling a length-`th` axis up to `h ≥ th` and reading the
nearest sample back down returns the index one started from.  This is what
makes one pass of downscale-then-upscale reproduce itself. -/
theorem nearestIdx_roundtrip (h th i : Nat) (hth : 0 < th) (hle : th ≤ h) :
    nearestIdx th h (nearestIdx h th i) = i := by
  rcases Nat.eq_or_lt_of_le hle with heq | hlt
  · subst heq
    rw [nearestIdx_self th i hth, nearestIdx_self th i hth]
  · unfold nearestIdx
    have hmod := Nat.div_add_mod ((2 * i + 1) * h) (2 * th)
    have hmlt : (2 * i + 1) * h % (2 * th) < 2 * th := Nat.mod_lt _ (by omega)
    set q := (2 * i + 1) * h / (2 * th) with hqdef
    set r := (2 * i + 1) * h % (2 * th) with hrdef
    have eA : (2 * i + 1) * h = 2 * (i * h) + h := by ring
    have eB : 2 * th * q = 2 * (th * q) := by ring
    rw [eA, eB] at hmod
    apply Nat.div_eq_of_lt_le
    · have e1 : i * (2 * h) = 2 * (i * h) := by ring
      have e2 : (2 * q + 1) * th = 2 * (th * q) + th := by ring
      rw [e1, e2]
      omega
    · have e1 : (i + 1) * (2 * h) = 2 * (i * h) + 2 * h := by ring
      have e2 : (2 * q + 1) * th = 2 * (th * q) + th := by ring
      rw [e1, e2]
      omega

/-- Dividing an odd numerator by a doubled divisor is plain division. -/
theorem odd_div_two_mul (b a : Nat) (hb : 0 < b) :
    (2 * a + 1) / (2 * b) = a / b := by
  have hmod := Nat.div_add_mod a b
  have hmlt : a % b < b := Nat.mod_lt _ hb
  set q := a / b with hq
  set r := a % b with hr
  apply Nat.div_eq_of_lt_le
  · have e1 : q * (2 * b) = 2 * (b * q) := by ring
    rw [e1]; omega
  · have e1 : (q + 1) * (2 * b) = 2 * (b * q) + 2 * b := by ring
    rw [e1]; omega

/-- The reduced axis length `max 1 (e / ps)` never exceeds a positive `e`. -/
theorem reduced_le (e ps : Nat) (he : 0 < e) : max 1 (e / ps) ≤ e := by
  have := Nat.div_le_self e ps
  omega

/-- `blockIdx` lands inside the region. -/
theorem blockIdx_lt (e ps i : Nat) (he : 0 < e) (hi : i < e) :
    blockIdx e ps i < e := by
  unfold blockIdx
  apply nearestIdx_lt _ _ _ he
  apply nearestIdx_lt _ _ _ (by omega) hi

/-- `blockIdx` is idempotent: a second identical pixelation pass reads the
same source sample as the first. -/
theorem blockIdx_idem (e ps i : Nat) (he : 0 < e) :
    blockIdx e ps (blockIdx e ps i) = blockIdx e ps i := by
  unfold blockIdx
  rw [nearestIdx_roundtrip e (max 1 (e / ps)) _ (by omega) (reduced_le e ps he)]

/-- With block size 1 the pixelation index map is the identity. -/
theorem blockIdx_one (e i : Nat) (he : 0 < e) : blockIdx e 1 i = i := by
  unfold blockIdx
  have hmax : max 1 (e / 1) = e := by
    have : e / 1 = e := Nat.div_one e
    omega
  rw [hmax, nearestIdx_self e i he, nearestIdx_self e i he]

/-- When the region extent is smaller than the block size, the reduced axis
collapses to a single sample, so the pixelation index map is constant. -/
theorem blockIdx_small (e ps i : Nat) (he : 0 < e) (hlt : e < ps) (hi : i < e) :
    blockIdx e ps i = e / 2 := by
  unfold blockIdx
  have h0 : e / ps = 0 := Nat.div_eq_of_lt hlt
  rw [h0]
  have hm : max 1 (0 : Nat) = 1 := rfl
  rw [hm]
  have hU : nearestIdx 1 e i = 0 := by
    unfold nearestIdx
    apply Nat.div_eq_of_lt
    omega
  rw [hU]
  unfold nearestIdx
  norm_num

/-- Upscaling a reduced axis of length `k` to full length `ps * k` sends
destination index `i` to reduced index `i / ps`: the nearest-neighbor blocks
are exactly the aligned size-`ps` tiles when `ps` divides the extent. -/
theorem nearestIdx_up_dvd (e ps k i : Nat) (hps : 0 < ps) (hk : 0 < k)
    (he : e = ps * k) : nearestIdx k e i = i / ps := by
  subst he
  unfold nearestIdx
  have e1 : (2 * i + 1) * k = k * (2 * i + 1) := by ring
  have e2 : 2 * (ps * k) = k * (2 * ps) := by ring
  rw [e1, e2, Nat.mul_div_mul_left _ _ hk]
  exact odd_div_two_mul ps i hps

/-- When the block size divides the extent, two offsets in the same size-`ps`
tile are sent to the same source sample. -/
theorem blockIdx_dvd_tile (e ps i j : Nat) (hps : 0 < ps) (he : 0 < e)
    (hdvd : ps ∣ e) (hij : i / ps = j / ps) :
    blockIdx e ps i = blockIdx e ps j := by
  obtain ⟨k, hk⟩ := hdvd
  have hk0 : 0 < k := by
    rcases Nat.eq_zero_or_pos k with h | h
    · subst h; omega
    · exact h
  unfold blockIdx
  have hdiv : e / ps = k := by rw [hk]; exact Nat.mul_div_cancel_left k hps
  have hmax : max 1 (e / ps) = k := by rw [hdiv]; omega
  rw [hmax, nearestIdx_up_dvd e ps k i hps hk0 hk,
    nearestIdx_up_dvd e ps k j hps hk0 hk, hij]

/-! ## Unfolding lemmas for `pixelate_region` -/

/-- The region replacement keeps the buffer height. -/
theorem pixelate_apply_height {α : Type} (img : Buffer α) (x1 y1 x2 y2 ps : Nat) :
    (pixelate_apply img x1 y1 x2 y2 ps).height = img.height := rfl

/-- The region replacement keeps the buffer width. -/
theorem pixelate_apply_width {α : Type} (img : Buffer α) (x1 y1 x2 y2 ps : Nat) :
    (pixelate_apply img x1 y1 x2 y2 ps).width = img.width := rfl

/-- When the clamped slice is nonempty in both axes, `pixelate_region`
succeeds and returns the region replacement. -/
theorem pixelate_region_ok {α : Type} (img : Buffer α) (x1 y1 x2 y2 ps : Nat)
    (hy : min y1 img.height < min y2 img.height)
    (hx : min x1 img.width < min x2 img.width) :
    pixelate_region img x1 y1 x2 y2 ps =
      Except.ok (pixelate_apply img x1 y1 x2 y2 ps) := by
  unfold pixelate_region
  rw [if_neg (by omega)]

/-- Pixels outside the clamped rectangle are returned unchanged. -/
theorem pixelate_apply_data_out {α : Type} (img : Buffer α)
    (x1 y1 x2 y2 ps y x : Nat)
    (hout : ¬(min y1 img.height ≤ y ∧ y < min y2 img.height ∧
      min x1 img.width ≤ x ∧ x < min x2 img.width)) :
    (pixelate_apply img x1 y1 x2 y2 ps).data y x = img.data y x := by
  unfold pixelate_apply
  simp only
  rw [if_neg hout]

/-- Pixels inside the clamped rectangle show the source sample selected by
`blockIdx` in each axis. -/
theorem pixelate_apply_data_in {α : Type} (img : Buffer α)
    (x1 y1 x2 y2 ps y x : Nat)
    (hin : min y1 img.height ≤ y ∧ y < min y2 img.height ∧
      min x1 img.width ≤ x ∧ x < min x2 img.width) :
    (pixelate_apply img x1 y1 x2 y2 ps).data y x =
      img.data
        (min y1 img.height +
          blockIdx (min y2 img.height - min y1 img.height) ps
            (y - min y1 img.height))
        (min x1 img.width +
          blockIdx (min x2 img.width - min x1 img.width) ps
            (x - min x1 img.width)) := by
  unfold pixelate_apply resizeNearest blockIdx
  simp only
  rw [if_pos hin]

/-- Specialization of `pixelate_apply_data_in` to an in-bounds rectangle,
where clamping is the identity. -/
theorem pixelate_apply_data_inb {α : Type} (img : Buffer α)
    (x1 y1 x2 y2 ps y x : Nat)
    (hx2 : x2 ≤ img.width) (hy2 : y2 ≤ img.height)
    (hy : y1 ≤ y) (hy' : y < y2) (hx : x1 ≤ x) (hx' : x < x2) :
    (pixelate_apply img x1 y1 x2 y2 ps).data y x =
      img.data (y1 + blockIdx (y2 - y1) ps (y - y1))
        (x1 + blockIdx (x2 - x1) ps (x - x1)) := by
  have e1 : min y1 img.height = y1 := by omega
  have e2 : min y2 img.height = y2 := by omega
  have e3 : min x1 img.width = x1 := by omega
  have e4 : min x2 img.width = x2 := by omega
  rw [pixelate_apply_data_in img x1 y1 x2 y2 ps y x (by omega), e1, e2, e3, e4]

/-! ## Claims -/

/-- C1: for every in-bounds rectangle `(x1, y1, x2, y2)` with `x1 < x2`,
`y1 < y2` and every block size `b ≥ 1`, applying `pixelate_region` twice with
the same rectangle and block size yields the same buffer as applying it
once — pixelation is idempotent. -/
theorem pixelate_region_idempotent {α : Type} (img : Buffer α)
    (x1 y1 x2 y2 b : Nat)
    (hx1 : x1 < x2) (hx2 : x2 ≤ img.width)
    (hy1 : y1 < y2) (hy2 : y2 ≤ img.height) (hb : 1 ≤ b) :
    (pixelate_region img x1 y1 x2 y2 b).bind
        (fun out => pixelate_region out x1 y1 x2 y2 b) =
      pixelate_region img x1 y1 x2 y2 b := by
  rw [pixelate_region_ok img x1 y1 x2 y2 b (by omega) (by omega)]
  show pixelate_region (pixelate_apply img x1 y1 x2 y2 b) x1 y1 x2 y2 b = _
  have hH : (pixelate_apply img x1 y1 x2 y2 b).height = img.height :=
    pixelate_apply_height ..
  have hW : (pixelate_apply img x1 y1 x2 y2 b).width = img.width :=
    pixelate_apply_width ..
  rw [pixelate_region_ok _ x1 y1 x2 y2 b (by rw [hH]; omega) (by rw [hW]; omega)]
  refine congrArg Except.ok ?_
  ext y x
  · rw [pixelate_apply_height, pixelate_apply_height]
  · rw [pixelate_apply_width, pixelate_apply_width]
  · by_cases hc : y1 ≤ y ∧ y < y2 ∧ x1 ≤ x ∧ x < x2
    · obtain ⟨hcy, hcy', hcx, hcx'⟩ := hc
      have hhy : 0 < y2 - y1 := by omega
      have hhx : 0 < x2 - x1 := by omega
      have hby : blockIdx (y2 - y1) b (y - y1) < y2 - y1 :=
        blockIdx_lt _ _ _ hhy (by omega)
      have hbx : blockIdx (x2 - x1) b (x - x1) < x2 - x1 :=
        blockIdx_lt _ _ _ hhx (by omega)
      rw [pixelate_apply_data_inb _ x1 y1 x2 y2 b y x
          (by rw [hW]; omega) (by rw [hH]; omega) hcy hcy' hcx hcx']
      rw [pixelate_apply_data_inb img x1 y1 x2 y2 b _ _
          hx2 hy2 (Nat.le_add_right ..) (by omega) (Nat.le_add_right ..) (by omega)]
      rw [pixelate_apply_data_inb img x1 y1 x2 y2 b y x hx2 hy2 hcy hcy' hcx hcx']
      rw [Nat.add_sub_cancel_left, Nat.add_sub_cancel_left,
        blockIdx_idem _ _ _ hhy, blockIdx_idem _ _ _ hhx]
    · have hout : ¬(min y1 (pixelate_apply img x1 y1 x2 y2 b).height ≤ y ∧
          y < min y2 (pixelate_apply img x1 y1 x2 y2 b).height ∧
          min x1 (pixelate_apply img x1 y1 x2 y2 b).width ≤ x ∧
          x < min x2 (pixelate_apply img x1 y1 x2 y2 b).width) := by
        rw [hH, hW]
        intro h
        exact hc ⟨by omega, by omega, by omega, by omega⟩
      rw [pixelate_apply_data_out _ x1 y1 x2 y2 b y x hout]

/-- Witness for C1 at a concrete buffer, rectangle and block size. -/
theorem pixelate_region_idempotent_witness :
    1 < 6 ∧ 6 ≤ sampleBuf.width ∧ 2 < 7 ∧ 7 ≤ sampleBuf.height ∧ 1 ≤ 3 ∧
      (pixelate_region sampleBuf 1 2 6 7 3).bind
          (fun out => pixelate_region out 1 2 6 7 3) =
        pixelate_region sampleBuf 1 2 6 7 3 :=
  ⟨by decide, by decide, by decide, by decide, by decide,
    pixelate_region_idempotent sampleBuf 1 2 6 7 3
      (by decide) (by decide) (by decide) (by decide) (by decide)⟩

/-- C5: for every in-bounds, non-degenerate rectangle, `pixelate_region`
with block size 1 leaves the buffer unchanged: the reduced dimensions equal
the region dimensions and the nearest-neighbor round trip is the identity. -/
theorem pixelate_region_block_one_id {α : Type} (img : Buffer α)
    (x1 y1 x2 y2 : Nat)
    (hx1 : x1 < x2) (hx2 : x2 ≤ img.width)
    (hy1 : y1 < y2) (hy2 : y2 ≤ img.height) :
    max 1 ((y2 - y1) / 1) = y2 - y1 ∧ max 1 ((x2 - x1) / 1) = x2 - x1 ∧
      pixelate_region img x1 y1 x2 y2 1 = Except.ok img := by
  refine ⟨by rw [Nat.div_one]; omega, by rw [Nat.div_one]; omega, ?_⟩
  rw [pixelate_region_ok img x1 y1 x2 y2 1 (by omega) (by omega)]
  refine congrArg Except.ok ?_
  ext y x
  · rw [pixelate_apply_height]
  · rw [pixelate_apply_width]
  · by_cases hc : y1 ≤ y ∧ y < y2 ∧ x1 ≤ x ∧ x < x2
    · obtain ⟨hcy, hcy', hcx, hcx'⟩ := hc
      rw [pixelate_apply_data_inb img x1 y1 x2 y2 1 y x hx2 hy2 hcy hcy' hcx hcx',
        blockIdx_one _ _ (by omega), blockIdx_one _ _ (by omega)]
      have ey : y1 + (y - y1) = y := by omega
      have ex : x1 + (x - x1) = x := by omega
      rw [ey, ex]
    · have hout : ¬(min y1 img.height ≤ y ∧ y < min y2 img.height ∧
          min x1 img.width ≤ x ∧ x < min x2 img.width) := by
        intro h
        exact hc ⟨by omega, by omega, by omega, by omega⟩
      exact pixelate_apply_data_out img x1 y1 x2 y2 1 y x hout

/-- Witness for C5 at a concrete buffer and rectangle. -/
theorem pixelate_region_block_one_id_witness :
    2 < 5 ∧ 5 ≤ sampleBuf.width ∧ 0 < 8 ∧ 8 ≤ sampleBuf.height ∧
      (max 1 ((8 - 0) / 1) = 8 - 0 ∧ max 1 ((5 - 2) / 1) = 5 - 2 ∧
        pixelate_region sampleBuf 2 0 5 8 1 = Except.ok sampleBuf) :=
  ⟨by decide, by decide, by decide, by decide,
    pixelate_region_block_one_id sampleBuf 2 0 5 8
      (by decide) (by decide) (by decide) (by decide)⟩

/-- C2: for every in-bounds, non-degenerate rectangle and block size `b ≥ 1`,
`pixelate_region` succeeds and leaves every pixel outside the rectangle
byte-for-byte equal to its input value. -/
theorem pixelate_region_frame {α : Type} (img : Buffer α)
    (x1 y1 x2 y2 b y x : Nat)
    (hx1 : x1 < x2) (hx2 : x2 ≤ img.width)
    (hy1 : y1 < y2) (hy2 : y2 ≤ img.height) (hb : 1 ≤ b)
    (hout : y < y1 ∨ y2 ≤ y ∨ x < x1 ∨ x2 ≤ x) :
    (pixelate_region img x1 y1 x2 y2 b).map (fun out => out.data y x) =
      Except.ok (img.data y x) := by
  rw [pixelate_region_ok img x1 y1 x2 y2 b (by omega) (by omega)]
  show Except.ok ((pixelate_apply img x1 y1 x2 y2 b).data y x) = _
  refine congrArg Except.ok ?_
  apply pixelate_apply_data_out
  intro h
  omega

/-- Witness for C2 at a concrete buffer, rectangle and outside pixel. -/
theorem pixelate_region_frame_witness :
    1 < 6 ∧ 6 ≤ sampleBuf.width ∧ 2 < 7 ∧ 7 ≤ sampleBuf.height ∧ 1 ≤ 3 ∧
      ((0 : Nat) < 2 ∨ 7 ≤ 0 ∨ 0 < 1 ∨ 6 ≤ 0) ∧
      (pixelate_region sampleBuf 1 2 6 7 3).map (fun out => out.data 0 0) =
        Except.ok (sampleBuf.data 0 0) :=
  ⟨by decide, by decide, by decide, by decide, by decide, by decide,
    pixelate_region_frame sampleBuf 1 2 6 7 3 0 0
      (by decide) (by decide) (by decide) (by decide) (by decide) (by decide)⟩

/-- C4: for every in-bounds, non-degenerate rectangle whose height (resp.
width) is smaller than the block size, `pixelate_region` does not fail, the
reduced dimension in that axis is `max 1 (extent / b) = 1`, and the result
is uniform along that axis within the rectangle. -/
theorem pixelate_region_small_extent {α : Type} (img : Buffer α)
    (x1 y1 x2 y2 b : Nat)
    (hx1 : x1 < x2) (hx2 : x2 ≤ img.width)
    (hy1 : y1 < y2) (hy2 : y2 ≤ img.height) (hb : 1 ≤ b) :
    pixelate_region img x1 y1 x2 y2 b =
      Except.ok (pixelate_apply img x1 y1 x2 y2 b) ∧
    (y2 - y1 < b → max 1 ((y2 - y1) / b) = 1 ∧
      ∀ y y' x, y1 ≤ y → y < y2 → y1 ≤ y' → y' < y2 → x1 ≤ x → x < x2 →
        (pixelate_apply img x1 y1 x2 y2 b).data y x =
          (pixelate_apply img x1 y1 x2 y2 b).data y' x) ∧
    (x2 - x1 < b → max 1 ((x2 - x1) / b) = 1 ∧
      ∀ x x' y, x1 ≤ x → x < x2 → x1 ≤ x' → x' < x2 → y1 ≤ y → y < y2 →
        (pixelate_apply img x1 y1 x2 y2 b).data y x =
          (pixelate_apply img x1 y1 x2 y2 b).data y x') := by
  refine ⟨pixelate_region_ok img x1 y1 x2 y2 b (by omega) (by omega), ?_, ?_⟩
  · intro hsmall
    have hdiv : (y2 - y1) / b = 0 := Nat.div_eq_of_lt hsmall
    refine ⟨by rw [hdiv]; rfl, ?_⟩
    intro y y' x hy hyb hy' hyb' hx hxb
    rw [pixelate_apply_data_inb img x1 y1 x2 y2 b y x hx2 hy2 hy hyb hx hxb,
      pixelate_apply_data_inb img x1 y1 x2 y2 b y' x hx2 hy2 hy' hyb' hx hxb,
      blockIdx_small _ _ _ (by omega) hsmall (by omega),
      blockIdx_small _ _ _ (by omega) hsmall (by omega)]
  · intro hsmall
    have hdiv : (x2 - x1) / b = 0 := Nat.div_eq_of_lt hsmall
    refine ⟨by rw [hdiv]; rfl, ?_⟩
    intro x x' y hx hxb hx' hxb' hy hyb
    rw [pixelate_apply_data_inb img x1 y1 x2 y2 b y x hx2 hy2 hy hyb hx hxb,
      pixelate_apply_data_inb img x1 y1 x2 y2 b y x' hx2 hy2 hy hyb hx' hxb',
      blockIdx_small _ _ _ (by omega) hsmall (by omega),
      blockIdx_small _ _ _ (by omega) hsmall (by omega)]

/-- Witness for C4 at a concrete rectangle with height 3 < block size 4. -/
theorem pixelate_region_small_extent_witness :
    1 < 6 ∧ 6 ≤ sampleBuf.width ∧ 2 < 5 ∧ 5 ≤ sampleBuf.height ∧ 1 ≤ 4 ∧
      (pixelate_region sampleBuf 1 2 6 5 4 =
        Except.ok (pixelate_apply sampleBuf 1 2 6 5 4) ∧
      (5 - 2 < 4 → max 1 ((5 - 2) / 4) = 1 ∧
        ∀ y y' x, 2 ≤ y → y < 5 → 2 ≤ y' → y' < 5 → 1 ≤ x → x < 6 →
          (pixelate_apply sampleBuf 1 2 6 5 4).data y x =
            (pixelate_apply sampleBuf 1 2 6 5 4).data y' x) ∧
      (6 - 1 < 4 → max 1 ((6 - 1) / 4) = 1 ∧
        ∀ x x' y, 1 ≤ x → x < 6 → 1 ≤ x' → x' < 6 → 2 ≤ y → y < 5 →
          (pixelate_apply sampleBuf 1 2 6 5 4).data y x =
            (pixelate_apply sampleBuf 1 2 6 5 4).data y x')) :=
  ⟨by decide, by decide, by decide, by decide, by decide,
    pixelate_region_small_extent sampleBuf 1 2 6 5 4
      (by decide) (by decide) (by decide) (by decide) (by decide)⟩

/-- C8: `pixelate_region` is deterministic — two invocations on equal
buffers, rectangles and block sizes return equal results. -/
theorem pixelate_region_deterministic {α : Type} (img img' : Buffer α)
    (x1 y1 x2 y2 b x1' y1' x2' y2' b' : Nat)
    (himg : img = img') (hx1 : x1 = x1') (hy1 : y1 = y1')
    (hx2 : x2 = x2') (hy2 : y2 = y2') (hb : b = b') :
    pixelate_region img x1 y1 x2 y2 b =
      pixelate_region img' x1' y1' x2' y2' b' := by
  subst himg hx1 hy1 hx2 hy2 hb
  rfl

/-- Witness for C8 at a concrete buffer, rectangle and block size. -/
theorem pixelate_region_deterministic_witness :
    sampleBuf = sampleBuf ∧ (1 : Nat) = 1 ∧ (2 : Nat) = 2 ∧ (6 : Nat) = 6 ∧
      (7 : Nat) = 7 ∧ (3 : Nat) = 3 ∧
      pixelate_region sampleBuf 1 2 6 7 3 = pixelate_region sampleBuf 1 2 6 7 3 :=
  ⟨rfl, rfl, rfl, rfl, rfl, rfl,
    pixelate_region_deterministic sampleBuf sampleBuf 1 2 6 7 3 1 2 6 7 3
      rfl rfl rfl rfl rfl rfl⟩

/-- C10: a rectangle reaching beyond the buffer bounds whose clamped extent
is nonempty does not make `pixelate_region` fail; the slice is silently
clamped and pixelation touches only the truncated sub-region, every pixel
outside it staying equal to its input value. -/
theorem pixelate_region_clamps_oob {α : Type} (img : Buffer α)
    (x1 y1 x2 y2 b : Nat) (hb : 1 ≤ b)
    (hoob : img.width < x2 ∨ img.height < y2)
    (hx : min x1 img.width < min x2 img.width)
    (hy : min y1 img.height < min y2 img.height) :
    pixelate_region img x1 y1 x2 y2 b =
      Except.ok (pixelate_apply img x1 y1 x2 y2 b) ∧
    (∀ y x, ¬(min y1 img.height ≤ y ∧ y < min y2 img.height ∧
        min x1 img.width ≤ x ∧ x < min x2 img.width) →
      (pixelate_apply img x1 y1 x2 y2 b).data y x = img.data y x) ∧
    (∀ y x, min y1 img.height ≤ y → y < min y2 img.height →
      min x1 img.width ≤ x → x < min x2 img.width →
      (pixelate_apply img x1 y1 x2 y2 b).data y x =
        img.data
          (min y1 img.height +
            blockIdx (min y2 img.height - min y1 img.height) b
              (y - min y1 img.height))
          (min x1 img.width +
            blockIdx (min x2 img.width - min x1 img.width) b
              (x - min x1 img.width))) := by
  refine ⟨pixelate_region_ok img x1 y1 x2 y2 b hy hx, ?_, ?_⟩
  · intro y x h
    exact pixelate_apply_data_out img x1 y1 x2 y2 b y x h
  · intro y x h1 h2 h3 h4
    exact pixelate_apply_data_in img x1 y1 x2 y2 b y x ⟨h1, h2, h3, h4⟩

/-- Witness for C10 at a concrete rectangle reaching past the right and
bottom edges of an 8 × 8 buffer. -/
theorem pixelate_region_clamps_oob_witness :
    1 ≤ 3 ∧ (sampleBuf.width < 12 ∨ sampleBuf.height < 9) ∧
      min 2 sampleBuf.width < min 12 sampleBuf.width ∧
      min 1 sampleBuf.height < min 9 sampleBuf.height ∧
      (pixelate_region sampleBuf 2 1 12 9 3 =
        Except.ok (pixelate_apply sampleBuf 2 1 12 9 3) ∧
      (∀ y x, ¬(min 1 sampleBuf.height ≤ y ∧ y < min 9 sampleBuf.height ∧
          min 2 sampleBuf.width ≤ x ∧ x < min 12 sampleBuf.width) →
        (pixelate_apply sampleBuf 2 1 12 9 3).data y x = sampleBuf.data y x) ∧
      (∀ y x, min 1 sampleBuf.height ≤ y → y < min 9 sampleBuf.height →
        min 2 sampleBuf.width ≤ x → x < min 12 sampleBuf.width →
        (pixelate_apply sampleBuf 2 1 12 9 3).data y x =
          sampleBuf.data
            (min 1 sampleBuf.height +
              blockIdx (min 9 sampleBuf.height - min 1 sampleBuf.height) 3
                (y - min 1 sampleBuf.height))
            (min 2 sampleBuf.width +
              blockIdx (min 12 sampleBuf.width - min 2 sampleBuf.width) 3
                (x - min 2 sampleBuf.width)))) :=
  ⟨by decide, by decide, by decide, by decide,
    pixelate_region_clamps_oob sampleBuf 2 1 12 9 3
      (by decide) (by decide) (by decide) (by decide)⟩

/-- C6 counterexample: on the degenerate rectangle `(3, 2, 3, 8)` (zero
width), `pixelate_region` fails with the imaging library's `valueError`,
not with the `invalidRegion` error the claim says an explicit check
raises — no such check exists in the source. -/
theorem pixelate_region_degenerate_counterexample :
    pixelate_region sampleBuf 3 2 3 8 15 =
      Except.error PixelateError.valueError ∧
    (Except.error PixelateError.valueError :
        Except PixelateError (Buffer Nat)) ≠
      Except.error PixelateError.invalidRegion :=
  ⟨rfl, fun h => PixelateError.noConfusion (Except.error.inj h)⟩

/-- C6 (amended): for every rectangle with `x2 ≤ x1` or `y2 ≤ y1`, the
sliced region is empty, so `pixelate_region` fails — not through an explicit
`InvalidRegion` check (the source has none) but with the imaging library's
`ValueError` against the zero-sized resize target — `process_image`
propagates the failure, and since the failure precedes the save no output
file is written. -/
theorem pixelate_region_degenerate_amended {α : Type} (img : Buffer α)
    (x1 y1 x2 y2 b : Nat) (hdeg : x2 ≤ x1 ∨ y2 ≤ y1) :
    pixelate_region img x1 y1 x2 y2 b =
      Except.error PixelateError.valueError ∧
    pixelate_region img x1 y1 x2 y2 b ≠
      Except.error PixelateError.invalidRegion ∧
    ∀ rest, process_image img ((x1, y1, x2, y2) :: rest) b =
      Except.error PixelateError.valueError := by
  have h1 : pixelate_region img x1 y1 x2 y2 b =
      Except.error PixelateError.valueError := by
    unfold pixelate_region
    rw [if_pos]
    rcases hdeg with h | h
    · right; omega
    · left; omega
  refine ⟨h1, by
    rw [h1]
    exact fun h => PixelateError.noConfusion (Except.error.inj h), ?_⟩
  intro rest
  show (match pixelate_region img x1 y1 x2 y2 b with
    | Except.error e => Except.error e
    | Except.ok img2 => process_image img2 rest b) = _
  rw [h1]

/-- Witness for C6 (amended) at a concrete degenerate rectangle. -/
theorem pixelate_region_degenerate_amended_witness :
    ((5 : Nat) ≤ 5 ∨ (7 : Nat) ≤ 2) ∧
      (pixelate_region sampleBuf 5 2 5 7 15 =
        Except.error PixelateError.valueError ∧
      pixelate_region sampleBuf 5 2 5 7 15 ≠
        Except.error PixelateError.invalidRegion ∧
      ∀ rest, process_image sampleBuf ((5, 2, 5, 7) :: rest) 15 =
        Except.error PixelateError.valueError) :=
  ⟨by decide,
    pixelate_region_degenerate_amended sampleBuf 5 2 5 7 15 (by decide)⟩

/-- C9: `process_image` computes exactly the left-to-right sequential fold
of `pixelate_region` over the rectangle list in the supplied order, so the
buffer it encodes to the output file is that fold's result (and on
overlaps the later rectangle's pixelation is applied after — hence
determines — the overlap). -/
theorem process_image_foldl {α : Type}
    (regions : List (Nat × Nat × Nat × Nat)) (img : Buffer α) (b : Nat) :
    process_image img regions b = pixelateFold img regions b := by
  induction regions generalizing img with
  | nil => rfl
  | cons r rest ih =>
    obtain ⟨x1, y1, x2, y2⟩ := r
    unfold pixelateFold at ih ⊢
    rw [List.foldlM_cons]
    show (match pixelate_region img x1 y1 x2 y2 b with
      | Except.error e => Except.error e
      | Except.ok img2 => process_image img2 rest b) = _
    cases hpr : pixelate_region img x1 y1 x2 y2 b with
    | error e => rfl
    | ok img2 =>
      show process_image img2 rest b = _
      exact ih img2

/-- C7: when the input file does not exist, `main` exits with status 1
(non-zero), prints a message containing "not found", and writes no output
file. -/
theorem main_missing_input_not_found (decoded : Buffer Nat) :
    (mainRun decoded false).exitCode = 1 ∧
    (mainRun decoded false).exitCode ≠ 0 ∧
    (mainRun decoded false).outputWritten = none ∧
    (mainRun decoded false).messages =
      ["Error: Input file " ++ squote ++ INPUT_FILE ++ squote
        ++ " " ++ "not found" ++ "."] :=
  ⟨rfl, fun h => Nat.noConfusion h, rfl, rfl⟩

/-- C3 counterexample: pixelating the full 3 × 35 rectangle of `tallBuf`
with block size 15 leaves pixels `(15, 0)` and `(17, 0)` — both lying in the
clipped 15 × 15 tile whose rows are 15 ≤ y < 30 and whose columns are
0 ≤ x < 3 — with the different values 33 and 105, so pixel values are not
constant on `block_size × block_size` tiles anchored at the rectangle
corner (35 is not a multiple of 15, so the nearest-neighbor blocks
realign). -/
theorem pixelate_region_tile_counterexample :
    (15 - 0) / 15 = (17 - 0) / 15 ∧ (0 - 0) / 15 = (0 - 0) / 15 ∧
    (pixelate_region tallBuf 0 0 3 35 15).map (fun o => o.data 15 0) =
      Except.ok (33 : Nat) ∧
    (pixelate_region tallBuf 0 0 3 35 15).map (fun o => o.data 17 0) =
      Except.ok (105 : Nat) ∧
    (33 : Nat) ≠ 105 :=
  ⟨rfl, rfl, rfl, rfl, by decide⟩

/-- C3 (amended): after `pixelate_region` on an in-bounds non-degenerate
rectangle with block size `b ≥ 1`, every pixel of the rectangle carries a
value that some pixel of the source sub-region had before the call, and —
provided `b` divides the rectangle's height and width, so that the
nearest-neighbor blocks align with the tiles — pixels in the same
`b × b` tile (anchored at the rectangle corner) are equal. -/
theorem pixelate_region_tiles_amended {α : Type} (img : Buffer α)
    (x1 y1 x2 y2 b y x y' x' : Nat)
    (hx1 : x1 < x2) (hx2 : x2 ≤ img.width)
    (hy1 : y1 < y2) (hy2 : y2 ≤ img.height) (hb : 1 ≤ b)
    (hy : y1 ≤ y) (hyb : y < y2) (hx : x1 ≤ x) (hxb : x < x2)
    (hy' : y1 ≤ y') (hyb' : y' < y2) (hx' : x1 ≤ x') (hxb' : x' < x2) :
    (∃ sy sx, sy < y2 - y1 ∧ sx < x2 - x1 ∧
      (pixelate_region img x1 y1 x2 y2 b).map (fun o => o.data y x) =
        Except.ok (img.data (y1 + sy) (x1 + sx))) ∧
    (b ∣ (y2 - y1) → b ∣ (x2 - x1) → (y - y1) / b = (y' - y1) / b →
      (x - x1) / b = (x' - x1) / b →
      (pixelate_region img x1 y1 x2 y2 b).map (fun o => o.data y x) =
        (pixelate_region img x1 y1 x2 y2 b).map (fun o => o.data y' x')) := by
  rw [pixelate_region_ok img x1 y1 x2 y2 b (by omega) (by omega)]
  constructor
  · refine ⟨blockIdx (y2 - y1) b (y - y1), blockIdx (x2 - x1) b (x - x1),
      blockIdx_lt _ _ _ (by omega) (by omega),
      blockIdx_lt _ _ _ (by omega) (by omega), ?_⟩
    show Except.ok ((pixelate_apply img x1 y1 x2 y2 b).data y x) = _
    exact congrArg Except.ok
      (pixelate_apply_data_inb img x1 y1 x2 y2 b y x hx2 hy2 hy hyb hx hxb)
  · intro hdy hdx hty htx
    show Except.ok ((pixelate_apply img x1 y1 x2 y2 b).data y x) =
      Except.ok ((pixelate_apply img x1 y1 x2 y2 b).data y' x')
    refine congrArg Except.ok ?_
    rw [pixelate_apply_data_inb img x1 y1 x2 y2 b y x hx2 hy2 hy hyb hx hxb,
      pixelate_apply_data_inb img x1 y1 x2 y2 b y' x' hx2 hy2 hy' hyb' hx' hxb',
      blockIdx_dvd_tile (y2 - y1) b (y - y1) (y' - y1) (by omega) (by omega)
        hdy hty,
      blockIdx_dvd_tile (x2 - x1) b (x - x1) (x' - x1) (by omega) (by omega)
        hdx htx]

/-- Witness for C3 (amended) at a concrete buffer and a rectangle whose
extents the block size divides. -/
theorem pixelate_region_tiles_amended_witness :
    1 < 7 ∧ 7 ≤ sampleBuf.width ∧ 0 < 6 ∧ 6 ≤ sampleBuf.height ∧ 1 ≤ 3 ∧
      0 ≤ 1 ∧ 1 < 6 ∧ 1 ≤ 2 ∧ 2 < 7 ∧ 0 ≤ 2 ∧ 2 < 6 ∧ 1 ≤ 3 ∧ 3 < 7 ∧
      ((∃ sy sx, sy < 6 - 0 ∧ sx < 7 - 1 ∧
        (pixelate_region sampleBuf 1 0 7 6 3).map (fun o => o.data 1 2) =
          Except.ok (sampleBuf.data (0 + sy) (1 + sx))) ∧
      (3 ∣ (6 - 0) → 3 ∣ (7 - 1) → (1 - 0) / 3 = (2 - 0) / 3 →
        (2 - 1) / 3 = (3 - 1) / 3 →
        (pixelate_region sampleBuf 1 0 7 6 3).map (fun o => o.data 1 2) =
          (pixelate_region sampleBuf 1 0 7 6 3).map (fun o => o.data 2 3))) :=
  ⟨by decide, by decide, by decide, by decide, by decide, by decide, by decide,
    by decide, by decide, by decide, by decide, by decide, by decide,
    pixelate_region_tiles_amended sampleBuf 1 0 7 6 3 1 2 2 3
      (by decide) (by decide) (by decide) (by decide) (by decide) (by decide)
      (by decide) (by decide) (by decide) (by decide) (by decide) (by decide)
      (by decide)⟩

end Psmail
